import Mathlib

/-!
# Verification of `rest.go`

A shallow embedding of the package `rest` (`src/rest.go`): the four exported
functions `BuildRequestObject`, `MakeRequest`, `BuildResponse` and `API`, together
with the parts of the Go standard library they call.

* A Go `string` and a `[]byte` are sequences of bytes: `List Byte`.
* A Go `map[string]string` that is ranged over is given as the list of its
  entries in the order the `range` loop visits them; being a map, its keys are
  pairwise distinct (`Request.WellFormed`), and another run of the program may
  visit any permutation of that list.
* A Go `map[string][]string` (`url.Values`, `http.Header`) is an association
  list with at most one entry per key, read with `mapGet` and written with `mapSet`.
* A pointer that may be `nil` is an `Option`; dereferencing `nil` is the
  run-time panic `Outcome.fault`.
* `http.NewRequest` (URL parsing) and `http.Client.Do` (the network) are the
  environment `Env`; `url.Values`, `url.QueryEscape`, `URL.Query`,
  `http.Header.Set`, `ioutil.ReadAll` and `Body.Close` are modelled after the
  standard library.
-/

namespace Rest

/-! ## Bytes, strings, errors -/

/-- One byte. -/
abbrev Byte := Fin 256

/-- Go `string`: an immutable sequence of bytes. -/
abbrev GoString := List Byte

/-- The bytes of an ASCII literal. -/
def ascii (s : String) : GoString := s.toList.map (fun c => Fin.ofNat c.toNat)

/-- Go `error` value (non-nil). -/
structure GoError where
  msg : String
  deriving DecidableEq, Repr

/-- Result of running a Go function: it returns, or it panics. -/
inductive Outcome (α : Type) where
  | ret (a : α)
  | fault
  deriving DecidableEq, Repr

/-! ## Go maps with slice values -/

/-- Go `map[string][]string`: one entry per key. -/
abbrev SliceMap := List (GoString × List GoString)

/-- Indexing `m[k]`: the stored slice, or the nil (empty) slice for a missing key. -/
def mapGet : SliceMap → GoString → List GoString
  | [], _ => []
  | (k', vs) :: m, k => if k' = k then vs else mapGet m k

/-- Assignment `m[k] = vs`: replaces the entry of `k`, or creates it. -/
def mapSet : SliceMap → GoString → List GoString → SliceMap
  | [], k, vs => [(k, vs)]
  | (k', vs') :: m, k, vs => if k' = k then (k, vs) :: m else (k', vs') :: mapSet m k vs

/-- The keys of the map. -/
def mapKeys (m : SliceMap) : List GoString := m.map Prod.fst

/-! ## `net/url`: query values -/

/-- Type `url.Values`. -/
abbrev Values := SliceMap

/-- Method `Values.Add`: `v[key] = append(v[key], value)`. -/
def Values.Add (v : Values) (key value : GoString) : Values :=
  mapSet v key (mapGet v key ++ [value])

/-- Function `shouldEscape(c, encodeQueryComponent)`: everything but the unreserved
characters (letters, digits, `-`, `_`, `.`, `~`) is escaped. -/
def shouldEscape (c : Byte) : Bool :=
  if (0x61 ≤ c ∧ c ≤ 0x7A) ∨ (0x41 ≤ c ∧ c ≤ 0x5A) ∨ (0x30 ≤ c ∧ c ≤ 0x39) then false
  else if c = 0x2D ∨ c = 0x5F ∨ c = 0x2E ∨ c = 0x7E then false
  else true

/-- Table `upperhex = "0123456789ABCDEF"`, indexed by a nibble. -/
def upperhex (n : Nat) : Byte :=
  if n < 10 then Fin.ofNat (0x30 + n) else Fin.ofNat (0x41 + (n - 10))

/-- Function `url.QueryEscape`: a space becomes `+`, any other byte that must be
escaped becomes `%XX`, the rest is copied. -/
def QueryEscape : GoString → GoString
  | [] => []
  | c :: s =>
    if c = 0x20 then 0x2B :: QueryEscape s
    else if shouldEscape c then 0x25 :: upperhex (c.val / 16) :: upperhex (c.val % 16) :: QueryEscape s
    else c :: QueryEscape s

/-- Byte-wise lexicographic order of Go strings (`a <= b`). -/
def strLe : GoString → GoString → Bool
  | [], _ => true
  | _ :: _, [] => false
  | a :: as, b :: bs => if a < b then true else if a = b then strLe as bs else false

/-- Order relation used by `sort.Strings`. -/
def StrLe (a b : GoString) : Prop := strLe a b = true

instance : DecidableRel StrLe := fun a b => inferInstanceAs (Decidable (strLe a b = true))

/-- Writes `key=value` for every value of one key to the buffer, each pair preceded by
`&` unless the buffer is still empty. -/
def encodeKey (keyEscaped : GoString) : GoString → List GoString → GoString
  | buf, [] => buf
  | buf, v :: vs =>
    let buf1 := if buf.length > 0 then buf ++ [0x26] else buf
    encodeKey keyEscaped (buf1 ++ keyEscaped ++ [0x3D] ++ QueryEscape v) vs

/-- The loop of `Values.Encode` over the sorted keys. -/
def encodeKeys (v : Values) : GoString → List GoString → GoString
  | buf, [] => buf
  | buf, k :: ks => encodeKeys v (encodeKey (QueryEscape k) buf (mapGet v k)) ks

/-- Method `Values.Encode`: the URL-encoded form `bar=baz&foo=quux`, sorted by key. -/
def Values.Encode (v : Values) : GoString :=
  encodeKeys v [] ((mapKeys v).insertionSort StrLe)

/-- Function `ishex`. -/
def ishex (c : Byte) : Bool :=
  (0x30 ≤ c ∧ c ≤ 0x39) ∨ (0x61 ≤ c ∧ c ≤ 0x66) ∨ (0x41 ≤ c ∧ c ≤ 0x46)

/-- Function `unhex`. -/
def unhex (c : Byte) : Nat :=
  if 0x30 ≤ c ∧ c ≤ 0x39 then c.val - 0x30
  else if 0x61 ≤ c ∧ c ≤ 0x66 then c.val - 0x61 + 10
  else if 0x41 ≤ c ∧ c ≤ 0x46 then c.val - 0x41 + 10
  else 0

/-- Function `url.QueryUnescape`: `%XX` becomes the byte, `+` a space; `none` is the
`EscapeError` for a `%` not followed by two hex digits. -/
def QueryUnescape : GoString → Option GoString
  | [] => some []
  | c :: s =>
    if c = 0x25 then
      match s with
      | a :: b :: rest =>
        if ishex a && ishex b then
          (QueryUnescape rest).map (fun t => Fin.ofNat (unhex a * 16 + unhex b) :: t)
        else none
      | _ => none
    else if c = 0x2B then (QueryUnescape s).map (fun t => 0x20 :: t)
    else (QueryUnescape s).map (fun t => c :: t)

/-- Function `strings.Cut(s, sep)` for a one-byte separator: the text before and after
the first `sep`, or `(s, "")` when there is none. -/
def cut (sep : Byte) : GoString → GoString × GoString
  | [] => ([], [])
  | c :: s => if c = sep then ([], s) else ((cut sep s).1.cons c, (cut sep s).2)

/-- One round of the loop of `parseQuery` on the pair `kv` (the text up to the next `&`):
a pair holding `;`, an empty pair and a pair that does not unescape are skipped. -/
def parsePair (m : Values) (kv : GoString) : Values :=
  if (0x3B : Byte) ∈ kv then m
  else if kv = [] then m
  else
    match QueryUnescape (cut 0x3D kv).1 with
    | none => m
    | some key =>
      match QueryUnescape (cut 0x3D kv).2 with
      | none => m
      | some value => mapSet m key (mapGet m key ++ [value])

/-- Constant `defaultMaxParams`: the default limit on the number of query parameters. -/
def defaultMaxParams : Nat := 10000

/-- Function `urlParamsWithinMax` under the default setting. -/
def urlParamsWithinMax (params : Nat) : Bool := params ≤ defaultMaxParams

/-- Function `url.ParseQuery`, its error dropped as `URL.Query` does: a query with more
than `defaultMaxParams` pieces (`strings.Count(query, "&") + 1`) is refused before
anything is read, leaving the map empty; otherwise the pieces are read one by one. -/
def ParseQuery (query : GoString) : Values :=
  if urlParamsWithinMax (query.count 0x26 + 1) then (query.splitOn 0x26).foldl parsePair []
  else []

/-! ## `net/textproto`, `net/http`: headers -/

/-- Go `http.Header`. -/
abbrev Header := SliceMap

/-- Function `validHeaderFieldByte`: the token characters of RFC 7230. -/
def validHeaderFieldByte (c : Byte) : Bool :=
  (0x61 ≤ c ∧ c ≤ 0x7A) ∨ (0x41 ≤ c ∧ c ≤ 0x5A) ∨ (0x30 ≤ c ∧ c ≤ 0x39) ∨
  c = 0x21 ∨ c = 0x23 ∨ c = 0x24 ∨ c = 0x25 ∨ c = 0x26 ∨ c = 0x27 ∨ c = 0x2A ∨ c = 0x2B ∨
  c = 0x2D ∨ c = 0x2E ∨ c = 0x5E ∨ c = 0x5F ∨ c = 0x60 ∨ c = 0x7C ∨ c = 0x7E

/-- The rewriting loop of `canonicalMIMEHeaderKey`: upper case for the first letter and
for a letter after `-`, lower case for the others. -/
def canonLoop : Bool → GoString → GoString
  | _, [] => []
  | upper, c :: s =>
    let c1 : Byte :=
      if upper ∧ 0x61 ≤ c ∧ c ≤ 0x7A then c - 0x20
      else if ¬ upper ∧ 0x41 ≤ c ∧ c ≤ 0x5A then c + 0x20
      else c
    c1 :: canonLoop (c1 = 0x2D) s

/-- Function `canonicalMIMEHeaderKey`: a key holding a byte that is not a token
character is returned unchanged. -/
def canonicalMIMEHeaderKey (a : GoString) : GoString :=
  if a.all validHeaderFieldByte then canonLoop true a else a

/-- The scan of `CanonicalMIMEHeaderKey` over the rest of `s`. -/
def canonScan (s : GoString) : Bool → GoString → GoString
  | _, [] => s
  | upper, c :: rest =>
    if ¬ validHeaderFieldByte c then s
    else if upper ∧ 0x61 ≤ c ∧ c ≤ 0x7A then canonicalMIMEHeaderKey s
    else if ¬ upper ∧ 0x41 ≤ c ∧ c ≤ 0x5A then canonicalMIMEHeaderKey s
    else canonScan s (c = 0x2D) rest

/-- Function `textproto.CanonicalMIMEHeaderKey`. -/
def CanonicalMIMEHeaderKey (s : GoString) : GoString := canonScan s true s

/-- Method `Header.Set`: `h[CanonicalMIMEHeaderKey(key)] = []string{value}`. -/
def Header.Set (h : Header) (key value : GoString) : Header :=
  mapSet h (CanonicalMIMEHeaderKey key) [value]

/-- Method `Header.Values`: the values stored under the canonical form of `key`. -/
def Header.Values (h : Header) (key : GoString) : List GoString :=
  mapGet h (CanonicalMIMEHeaderKey key)

/-! ## `net/http`: requests, responses, the environment -/

/-- Go `url.URL`. -/
structure URL where
  Scheme : GoString
  Opaque : GoString
  User : Option (GoString × Option GoString)
  Host : GoString
  Path : GoString
  RawPath : GoString
  ForceQuery : Bool
  RawQuery : GoString
  Fragment : GoString
  deriving DecidableEq, Repr

/-- Method `URL.Query`: `ParseQuery(u.RawQuery)`, malformed pairs dropped and a query
over the limit read as empty. -/
def URL.Query (u : URL) : Values := ParseQuery u.RawQuery

/-- Go `http.Request` as far as this package reads or writes it. -/
structure HttpRequest where
  Method : GoString
  URL : URL
  Header : Header
  Body : List Byte
  deriving DecidableEq, Repr

/-- What has been done to a body stream. -/
inductive BodyEvent where
  | read
  | close
  deriving DecidableEq, Repr

/-- A response body stream (`io.ReadCloser`): the bytes it still delivers, the error
that ends it (`none` for a clean end of file) and the operations performed on it. -/
structure Body where
  data : List Byte
  err : Option GoError
  log : List BodyEvent
  deriving DecidableEq, Repr

/-- Function `ioutil.ReadAll`: everything up to the end of the stream or the first
error, together with that error. -/
def ReadAll (b : Body) : (List Byte × Option GoError) × Body :=
  ((b.data, b.err), { data := [], err := b.err, log := b.log ++ [BodyEvent.read] })

/-- Method `Body.Close`. -/
def Body.Close (b : Body) : Body := { b with log := b.log ++ [BodyEvent.close] }

/-- How often the stream has been closed. -/
def Body.closes (b : Body) : Nat := b.log.count BodyEvent.close

/-- Go `http.Response` as far as this package reads it. -/
structure HttpResponse where
  StatusCode : Int
  Header : Header
  Body : Body
  deriving DecidableEq, Repr

/-- The standard library calls that depend on the outside world: `http.NewRequest`
(method check and URL parsing; a request or an error) and `http.Client.Do` with the
default transport (the network round trip). -/
structure Env where
  NewRequest : GoString → GoString → List Byte → Except GoError HttpRequest
  Do : HttpRequest → Option HttpResponse × Option GoError

/-! ## Package `rest` -/

/-- Type `Method`: a string. -/
abbrev Method := GoString

/-- Constant `Get`. -/
def Get : Method := ascii "GET"
/-- Constant `Post`. -/
def Post : Method := ascii "POST"
/-- Constant `Put`. -/
def Put : Method := ascii "PUT"
/-- Constant `Patch`. -/
def Patch : Method := ascii "PATCH"
/-- Constant `Delete`. -/
def Delete : Method := ascii "DELETE"

/-- Type `Request`; the two maps are listed in the order their `range` loop runs. -/
structure Request where
  Method : Method
  BaseURL : GoString
  RequestHeaders : List (GoString × GoString)
  QueryParams : List (GoString × GoString)
  RequestBody : List Byte
  deriving DecidableEq, Repr

/-- The two mappings of a `Request` are Go maps: no key occurs twice. -/
def Request.WellFormed (r : Request) : Prop :=
  (r.RequestHeaders.map Prod.fst).Nodup ∧ (r.QueryParams.map Prod.fst).Nodup

/-- Type `Response`. -/
structure Response where
  StatusCode : Int
  ResponseBody : GoString
  ResponseHeaders : SliceMap
  deriving DecidableEq, Repr

/-- The loop `for key, value := range request.QueryParams { q.Add(key, value) }`. -/
def addParams (q : Values) (params : List (GoString × GoString)) : Values :=
  params.foldl (fun q kv => q.Add kv.1 kv.2) q

/-- The loop `for key, value := range request.RequestHeaders { req.Header.Set(key, value) }`. -/
def setHeaders (h : Header) (headers : List (GoString × GoString)) : Header :=
  headers.foldl (fun h kv => h.Set kv.1 kv.2) h

/-- Function `BuildRequestObject` (rest.go 39-56). `req` is nil when `http.NewRequest`
failed; both `req.URL` and `req.Header` dereference it. -/
def BuildRequestObject (env : Env) (request : Request) :
    Outcome (Option HttpRequest × Option GoError) :=
  let r := env.NewRequest request.Method request.BaseURL request.RequestBody
  let req : Option HttpRequest := match r with
    | Except.ok x => some x
    | Except.error _ => none
  let err : Option GoError := match r with
    | Except.ok _ => none
    | Except.error e => some e
  -- adds query parameters to the URL
  let afterQuery : Outcome (Option HttpRequest) :=
    if request.QueryParams.length ≠ 0 then
      match req with
      | none => Outcome.fault
      | some x =>
        let q := addParams x.URL.Query request.QueryParams
        Outcome.ret (some { x with URL := { x.URL with RawQuery := q.Encode } })
    else Outcome.ret req
  match afterQuery with
  | Outcome.fault => Outcome.fault
  | Outcome.ret req1 =>
    match request.RequestHeaders with
    | [] => Outcome.ret (req1, err)
    | hd :: tl =>
      match req1 with
      | none => Outcome.fault
      | some x => Outcome.ret (some { x with Header := setHeaders x.Header (hd :: tl) }, err)

/-- Function `MakeRequest` (rest.go 59-65): `Client.Do(req)`; a nil request panics
inside `Do`. -/
def MakeRequest (env : Env) (req : Option HttpRequest) :
    Outcome (Option HttpResponse × Option GoError) :=
  match req with
  | none => Outcome.fault
  | some x => Outcome.ret (env.Do x)

/-- Function `BuildResponse` (rest.go 68-80). Returns the pair `(*Response, error)` and
the state of `*res` on return. The `defer res.Body.Close()` stands after the early
return of the read error, so it is registered, and run on return, only after a
successful read. -/
def BuildResponse (res : Option HttpResponse) :
    Outcome ((Option Response × Option GoError) × HttpResponse) :=
  match res with
  | none => Outcome.fault
  | some x =>
    let rd := ReadAll x.Body
    let body := rd.1.1
    let err := rd.1.2
    let x1 : HttpResponse := { x with Body := rd.2 }
    match err with
    | some e => Outcome.ret ((none, some e), x1)
    | none =>
      let response : Response :=
        { StatusCode := x1.StatusCode, ResponseBody := body, ResponseHeaders := x1.Header }
      Outcome.ret ((some response, none), { x1 with Body := x1.Body.Close })

/-- The stages `API` can invoke. -/
inductive Stage where
  | BuildRequestObject
  | MakeRequest
  | BuildResponse
  deriving DecidableEq, Repr

/-- One run of `API`: the stages it invoked, in order, and what it returned. -/
structure Run where
  calls : List Stage
  result : Outcome (Option Response × Option GoError)
  deriving DecidableEq, Repr

/-- Function `API` (rest.go 83-104). -/
def API (env : Env) (request : Request) : Run :=
  -- Build the HTTP request object.
  match BuildRequestObject env request with
  | Outcome.fault => { calls := [Stage.BuildRequestObject], result := Outcome.fault }
  | Outcome.ret (_, some err) =>
    { calls := [Stage.BuildRequestObject], result := Outcome.ret (none, some err) }
  | Outcome.ret (req, none) =>
    -- Build the HTTP client and make the request.
    match MakeRequest env req with
    | Outcome.fault =>
      { calls := [Stage.BuildRequestObject, Stage.MakeRequest], result := Outcome.fault }
    | Outcome.ret (_, some err) =>
      { calls := [Stage.BuildRequestObject, Stage.MakeRequest],
        result := Outcome.ret (none, some err) }
    | Outcome.ret (res, none) =>
      -- Build Response object.
      match BuildResponse res with
      | Outcome.fault =>
        { calls := [Stage.BuildRequestObject, Stage.MakeRequest, Stage.BuildResponse],
          result := Outcome.fault }
      | Outcome.ret ((_, some err), _) =>
        { calls := [Stage.BuildRequestObject, Stage.MakeRequest, Stage.BuildResponse],
          result := Outcome.ret (none, some err) }
      | Outcome.ret ((response, none), _) =>
        { calls := [Stage.BuildRequestObject, Stage.MakeRequest, Stage.BuildResponse],
          result := Outcome.ret (response, none) }

/-! ## Reading a query string back -/

/-- The text `key=value` of one pair in a query string, both sides escaped with
`QueryEscape`. -/
def pairEncoded (k v : GoString) : GoString := QueryEscape k ++ [0x3D] ++ QueryEscape v

/-- The pairs of a raw query string: its pieces between the `&` separators. -/
def rawPairs (rawQuery : GoString) : List GoString := rawQuery.splitOn 0x26

/-- The encoded pairs of `v` in the order `Values.Encode` emits them: keys ascending,
the values of one key in their stored order. -/
def querySegments (v : Values) : List GoString :=
  ((mapKeys v).insertionSort StrLe).flatMap (fun k => (mapGet v k).map (pairEncoded k))

/-- Appends the segments to the buffer the way the loops of `Values.Encode` do. -/
def appendSegs (buf : GoString) (segs : List GoString) : GoString :=
  segs.foldl (fun b s => (if b.length > 0 then b ++ [0x26] else b) ++ s) buf

/-! ## A test double for the environment

`testEnv` answers a handful of URLs the way the standard library and a stub echo
server would; it is the concrete environment at which the theorems are instantiated. -/

/-- The URL `http://<host><path>?<query>` as `url.Parse` returns it. -/
def httpURL (host path query : GoString) : URL :=
  { Scheme := ascii "http", Opaque := [], User := none, Host := host, Path := path,
    RawPath := [], ForceQuery := false, RawQuery := query, Fragment := [] }

/-- The answer of the echo server to a request with body `payload`. -/
def echoResponse (payload : List Byte) : HttpResponse :=
  { StatusCode := 200, Header := [(ascii "Set-Cookie", [ascii "a=1", ascii "b=2"])],
    Body := { data := payload, err := none, log := [] } }

/-- A response whose connection breaks after three bytes of the body. -/
def brokenResponse : HttpResponse :=
  { StatusCode := 200, Header := [(ascii "Content-Length", [ascii "5"])],
    Body := { data := ascii "hel", err := some { msg := "unexpected EOF" }, log := [] } }

/-- The URL `http://test.local/echo?q=0&z=9` parsed into a request. -/
def echoRequest : HttpRequest :=
  { Method := Get, URL := httpURL (ascii "test.local") (ascii "/echo") (ascii "q=0&z=9"),
    Header := [], Body := [] }

/-- The URL `http://test.local/echo` parsed into a request. -/
def echoPlainRequest : HttpRequest :=
  { Method := Get, URL := httpURL (ascii "test.local") (ascii "/echo") [],
    Header := [], Body := [] }

/-- The URL `http://h/p?a=1;b=2&c=3` parsed into a request: `url.Parse` keeps the query
as it is written. -/
def semicolonParsed (method : GoString) (body : List Byte) : HttpRequest :=
  { Method := method, URL := httpURL (ascii "h") (ascii "/p") (ascii "a=1;b=2&c=3"),
    Header := [], Body := body }

/-- The URL `http://h/p?x=%zz&c=3` parsed into a request: `url.Parse` does not check the
escapes of the query. -/
def brokenEscapeParsed (method : GoString) (body : List Byte) : HttpRequest :=
  { Method := method, URL := httpURL (ascii "h") (ascii "/p") (ascii "x=%zz&c=3"),
    Header := [], Body := body }

/-- The test double: `NewRequest` knows six URLs and rejects everything else (such as
`://bad`, which has no scheme); `Do` reaches `test.local` only, where `/drop` breaks
the connection while the body is read and every other path echoes the request body. -/
def testEnv : Env where
  NewRequest := fun method url body =>
    if url = ascii "http://test.local/echo" then
      Except.ok { Method := method, URL := httpURL (ascii "test.local") (ascii "/echo") [],
                  Header := [], Body := body }
    else if url = ascii "http://test.local/echo?q=0&z=9" then
      Except.ok { Method := method,
                  URL := httpURL (ascii "test.local") (ascii "/echo") (ascii "q=0&z=9"),
                  Header := [], Body := body }
    else if url = ascii "http://test.local/drop" then
      Except.ok { Method := method, URL := httpURL (ascii "test.local") (ascii "/drop") [],
                  Header := [], Body := body }
    else if url = ascii "http://h/p?a=1;b=2&c=3" then Except.ok (semicolonParsed method body)
    else if url = ascii "http://h/p?x=%zz&c=3" then Except.ok (brokenEscapeParsed method body)
    else if url = ascii "http://down.local/" then
      Except.ok { Method := method, URL := httpURL (ascii "down.local") (ascii "/") [],
                  Header := [], Body := body }
    else Except.error { msg := "parse: missing protocol scheme" }
  Do := fun req =>
    if req.URL.Host = ascii "test.local" then
      if req.URL.Path = ascii "/drop" then (some brokenResponse, none)
      else (some (echoResponse req.Body), none)
    else (none, some { msg := "dial tcp: connection refused" })

/-- A request to `url` with no headers, no query parameters and no body. -/
def plainRequest (url : String) : Request :=
  { Method := Get, BaseURL := ascii url, RequestHeaders := [], QueryParams := [],
    RequestBody := [] }

/-- A request to the echo endpoint whose base URL carries the query `q=0&z=9`, with
one header and two query parameters. -/
def queryRequest : Request :=
  { Method := Get, BaseURL := ascii "http://test.local/echo?q=0&z=9",
    RequestHeaders := [(ascii "X-Test", ascii "abc")],
    QueryParams := [(ascii "q", ascii "1 2"), (ascii "a", ascii "x")],
    RequestBody := [] }

/-- A request with two headers of different names, one of them written in lower case. -/
def headerRequest : Request :=
  { Method := Get, BaseURL := ascii "http://test.local/echo",
    RequestHeaders := [(ascii "content-type", ascii "text/plain"), (ascii "X-Test", ascii "abc")],
    QueryParams := [],
    RequestBody := [] }

/-- A request whose base URL has the query `a=1;b=2&c=3`, with the parameter `d=4`. -/
def semicolonRequest : Request :=
  { Method := Get, BaseURL := ascii "http://h/p?a=1;b=2&c=3",
    RequestHeaders := [],
    QueryParams := [(ascii "d", ascii "4")],
    RequestBody := [] }

/-- A request whose base URL has the query `x=%zz&c=3`, with the parameter `d=4`. -/
def brokenEscapeRequest : Request :=
  { Method := Get, BaseURL := ascii "http://h/p?x=%zz&c=3",
    RequestHeaders := [],
    QueryParams := [(ascii "d", ascii "4")],
    RequestBody := [] }

/-- A request whose two header names differ only in letter case, `x-test` being
visited first. -/
def caseRequest : Request :=
  { Method := Get, BaseURL := ascii "http://test.local/echo",
    RequestHeaders := [(ascii "x-test", ascii "a"), (ascii "X-Test", ascii "b")],
    QueryParams := [],
    RequestBody := [] }

/-! ## Maps -/

theorem mapGet_mapSet (m : SliceMap) (k : GoString) (vs : List GoString) (k' : GoString) :
    mapGet (mapSet m k vs) k' = if k = k' then vs else mapGet m k' := by
  induction m with
  | nil => simp [mapSet, mapGet]
  | cons hd m ih =>
    obtain ⟨k0, v0⟩ := hd
    by_cases h0 : k0 = k
    · subst h0
      by_cases h1 : k0 = k' <;> simp [mapSet, mapGet, h1]
    · by_cases h1 : k0 = k'
      · subst h1
        simp [mapSet, mapGet, h0, Ne.symm h0]
      · simp [mapSet, mapGet, h0, h1, ih]

theorem mem_mapKeys_mapSet (m : SliceMap) (k : GoString) (vs : List GoString)
    (k' : GoString) : k' ∈ mapKeys (mapSet m k vs) ↔ k' = k ∨ k' ∈ mapKeys m := by
  induction m with
  | nil => simp [mapSet, mapKeys]
  | cons hd m ih =>
    obtain ⟨k0, v0⟩ := hd
    by_cases h0 : k0 = k
    · subst h0
      simp [mapSet, mapKeys]
    · have ih1 : k' ∈ List.map Prod.fst (mapSet m k vs) ↔ k' = k ∨ k' ∈ List.map Prod.fst m := ih
      simp only [mapSet, h0, if_false, mapKeys, List.map_cons, List.mem_cons, ih1]
      tauto

theorem nodup_mapKeys_mapSet (m : SliceMap) (k : GoString) (vs : List GoString)
    (h : (mapKeys m).Nodup) : (mapKeys (mapSet m k vs)).Nodup := by
  induction m with
  | nil => simp [mapSet, mapKeys]
  | cons hd m ih =>
    obtain ⟨k0, v0⟩ := hd
    have hcons : k0 ∉ mapKeys m ∧ (mapKeys m).Nodup := by
      simpa [mapKeys] using h
    by_cases h0 : k0 = k
    · subst h0
      simpa [mapSet, mapKeys] using h
    · have hnot : k0 ∉ mapKeys (mapSet m k vs) := by
        rw [mem_mapKeys_mapSet]
        rintro (h1 | h1)
        · exact h0 h1
        · exact hcons.1 h1
      have hrec := ih hcons.2
      simp only [mapSet, h0, if_false]
      exact List.nodup_cons.2 ⟨hnot, hrec⟩

theorem mem_mapKeys_of_mapGet_ne_nil (m : SliceMap) (k : GoString) (h : mapGet m k ≠ []) :
    k ∈ mapKeys m := by
  induction m with
  | nil => simp [mapGet] at h
  | cons hd m ih =>
    obtain ⟨k0, v0⟩ := hd
    by_cases h0 : k0 = k
    · simp [mapKeys, h0]
    · simp only [mapGet, h0, if_false] at h
      have := ih h
      simp only [mapKeys, List.map_cons, List.mem_cons]
      exact Or.inr this

/-! ## The query loop -/

theorem mapGet_addParams (ps : List (GoString × GoString)) (q : Values) (k : GoString) :
    mapGet (addParams q ps) k
      = mapGet q k ++ (ps.filter (fun kv => decide (kv.1 = k))).map Prod.snd := by
  induction ps generalizing q with
  | nil => simp [addParams]
  | cons p ps ih =>
    have hstep : addParams q (p :: ps) = addParams (q.Add p.1 p.2) ps := rfl
    rw [hstep, ih, Values.Add, mapGet_mapSet]
    by_cases h : p.1 = k
    · subst h
      simp [List.filter_cons]
    · simp [List.filter_cons, h]

theorem mem_mapKeys_addParams (ps : List (GoString × GoString)) (q : Values)
    (k : GoString) :
    k ∈ mapKeys (addParams q ps) ↔ k ∈ mapKeys q ∨ k ∈ ps.map Prod.fst := by
  induction ps generalizing q with
  | nil => simp [addParams]
  | cons p ps ih =>
    have hstep : addParams q (p :: ps) = addParams (q.Add p.1 p.2) ps := rfl
    rw [hstep, ih, Values.Add, mem_mapKeys_mapSet]
    simp only [List.map_cons, List.mem_cons]
    tauto

theorem nodup_mapKeys_addParams (ps : List (GoString × GoString)) (q : Values)
    (h : (mapKeys q).Nodup) : (mapKeys (addParams q ps)).Nodup := by
  induction ps generalizing q with
  | nil => simpa [addParams] using h
  | cons p ps ih =>
    have hstep : addParams q (p :: ps) = addParams (q.Add p.1 p.2) ps := rfl
    rw [hstep]
    exact ih _ (nodup_mapKeys_mapSet _ _ _ h)

theorem perm_eq_of_length_le_one {α : Type} (l1 l2 : List α) (hp : l1.Perm l2)
    (hlen : l1.length ≤ 1) : l1 = l2 := by
  match l1, hlen with
  | [], _ => exact (List.Perm.eq_nil hp.symm).symm
  | [a], _ => exact (List.perm_singleton.1 hp.symm).symm

theorem filter_key_length_le_one (ps : List (GoString × GoString)) (k : GoString)
    (hnd : (ps.map Prod.fst).Nodup) :
    (ps.filter (fun kv => decide (kv.1 = k))).length ≤ 1 := by
  induction ps with
  | nil => simp
  | cons p ps ih =>
    have hcons : p.1 ∉ ps.map Prod.fst ∧ (ps.map Prod.fst).Nodup := by
      simpa using hnd
    by_cases h : p.1 = k
    · have hnone : ps.filter (fun kv => decide (kv.1 = k)) = [] := by
        rw [List.filter_eq_nil_iff]
        intro kv hkv hdec
        have hk : kv.1 = k := by simpa using hdec
        exact hcons.1 (List.mem_map.2 ⟨kv, hkv, by rw [hk, h]⟩)
      simp [List.filter_cons, h, hnone]
    · simpa [List.filter_cons, h] using ih hcons.2

/-! ## What `URL.Query` reads -/

theorem nodup_mapKeys_parsePair (m : Values) (kv : GoString) (h : (mapKeys m).Nodup) :
    (mapKeys (parsePair m kv)).Nodup := by
  unfold parsePair
  split
  · exact h
  · split
    · exact h
    · split
      · exact h
      · split
        · exact h
        · exact nodup_mapKeys_mapSet _ _ _ h

theorem nodup_mapKeys_foldl_parsePair (l : List GoString) (m : Values)
    (h : (mapKeys m).Nodup) : (mapKeys (l.foldl parsePair m)).Nodup := by
  induction l generalizing m with
  | nil => simpa using h
  | cons kv l ih => exact ih _ (nodup_mapKeys_parsePair _ _ h)

theorem nodup_mapKeys_Query (u : URL) : (mapKeys u.Query).Nodup := by
  unfold URL.Query ParseQuery
  split
  · exact nodup_mapKeys_foldl_parsePair _ _ (by simp [mapKeys])
  · simp [mapKeys]

theorem mem_mapGet_parsePair_of_mem (m : Values) (kv k v : GoString)
    (h : v ∈ mapGet m k) : v ∈ mapGet (parsePair m kv) k := by
  unfold parsePair
  split
  · exact h
  · split
    · exact h
    · split
      · exact h
      · split
        · exact h
        · rename_i key _ _ value _
          rw [mapGet_mapSet]
          by_cases hk : key = k
          · subst hk
            simp [h]
          · simpa [hk] using h

theorem mem_mapGet_foldl_parsePair_of_mem (l : List GoString) (m : Values)
    (k v : GoString) (h : v ∈ mapGet m k) : v ∈ mapGet (l.foldl parsePair m) k := by
  induction l generalizing m with
  | nil => simpa using h
  | cons kv l ih => exact ih _ (mem_mapGet_parsePair_of_mem m kv k v h)

theorem mem_mapGet_parsePair_self (m : Values) (kv k v : GoString)
    (hsemi : (0x3B : Byte) ∉ kv) (hne : kv ≠ [])
    (hk : QueryUnescape (cut 0x3D kv).1 = some k)
    (hv : QueryUnescape (cut 0x3D kv).2 = some v) :
    v ∈ mapGet (parsePair m kv) k := by
  simp [parsePair, hsemi, hne, hk, hv, mapGet_mapSet]

/-- Method `URL.Query` reads every pair of a raw query within the limit on the number
of pieces that holds no `;`, is not empty and whose key and value unescape. -/
theorem Query_reads_rawPair (u : URL) (kv k v : GoString)
    (hmax : u.RawQuery.count 0x26 + 1 ≤ defaultMaxParams)
    (hkv : kv ∈ rawPairs u.RawQuery)
    (hsemi : (0x3B : Byte) ∉ kv) (hne : kv ≠ [])
    (hk : QueryUnescape (cut 0x3D kv).1 = some k)
    (hv : QueryUnescape (cut 0x3D kv).2 = some v) :
    v ∈ mapGet u.Query k := by
  have hgen : ∀ (l : List GoString) (m : Values), kv ∈ l →
      v ∈ mapGet (l.foldl parsePair m) k := by
    intro l
    induction l with
    | nil => intro m hmem; cases hmem
    | cons hd l ih =>
      intro m hmem
      rcases List.mem_cons.1 hmem with rfl | hmem
      · exact mem_mapGet_foldl_parsePair_of_mem l _ k v
          (mem_mapGet_parsePair_self m kv k v hsemi hne hk hv)
      · exact ih _ hmem
  have hw : urlParamsWithinMax (u.RawQuery.count 0x26 + 1) = true := by
    simpa [urlParamsWithinMax] using hmax
  unfold URL.Query ParseQuery
  rw [if_pos hw]
  exact hgen _ _ hkv

/-! ## The order of keys and the escaping of `&` -/

theorem strLe_total (a b : GoString) : StrLe a b ∨ StrLe b a := by
  induction a generalizing b with
  | nil => exact Or.inl (by simp [StrLe, strLe])
  | cons x a ih =>
    cases b with
    | nil => exact Or.inr (by simp [StrLe, strLe])
    | cons y b =>
      rcases lt_trichotomy x y with h | h | h
      · exact Or.inl (by simp [StrLe, strLe, h])
      · subst h
        rcases ih b with h1 | h1
        · exact Or.inl (by simpa [StrLe, strLe] using h1)
        · exact Or.inr (by simpa [StrLe, strLe] using h1)
      · exact Or.inr (by simp [StrLe, strLe, h])

theorem strLe_antisymm (a b : GoString) (hab : StrLe a b) (hba : StrLe b a) : a = b := by
  induction a generalizing b with
  | nil =>
    cases b with
    | nil => rfl
    | cons y b => simp [StrLe, strLe] at hba
  | cons x a ih =>
    cases b with
    | nil => simp [StrLe, strLe] at hab
    | cons y b =>
      rcases lt_trichotomy x y with h | h | h
      · have h1 : ¬ y < x := not_lt.2 (le_of_lt h)
        have h2 : y ≠ x := ne_of_gt h
        simp [StrLe, strLe, h1, h2] at hba
      · subst h
        simp only [StrLe, strLe, lt_irrefl, if_false, if_true] at hab hba
        rw [ih b hab hba]
      · have h1 : ¬ x < y := not_lt.2 (le_of_lt h)
        have h2 : x ≠ y := ne_of_gt h
        simp [StrLe, strLe, h1, h2] at hab

theorem strLe_trans (a b c : GoString) (hab : StrLe a b) (hbc : StrLe b c) : StrLe a c := by
  induction a generalizing b c with
  | nil => simp [StrLe, strLe]
  | cons x a ih =>
    cases b with
    | nil => simp [StrLe, strLe] at hab
    | cons y b =>
      cases c with
      | nil => simp [StrLe, strLe] at hbc
      | cons z c =>
        simp only [StrLe, strLe] at hab hbc ⊢
        by_cases hxy : x < y
        · by_cases hyz : y < z
          · simp [lt_trans hxy hyz]
          · simp only [hyz, if_false] at hbc
            by_cases hyz' : y = z
            · subst hyz'
              simp [hxy]
            · simp [hyz'] at hbc
        · simp only [hxy, if_false] at hab
          by_cases hxy' : x = y
          · subst hxy'
            simp only [if_true] at hab
            by_cases hyz : x < z
            · simp [hyz]
            · simp only [hyz, if_false] at hbc ⊢
              by_cases hyz' : x = z
              · simp only [hyz', if_true] at hbc ⊢
                exact ih b c hab hbc
              · simp [hyz'] at hbc
          · simp [hxy'] at hab

theorem upperhex_ne_amp (n : Nat) (h : n < 16) : upperhex n ≠ 0x26 := by
  interval_cases n <;> decide

set_option maxRecDepth 100000 in
theorem not_shouldEscape_ne_amp : ∀ c : Byte, shouldEscape c = false → c ≠ 0x26 := by
  decide

theorem amp_not_mem_QueryEscape (s : GoString) : (0x26 : Byte) ∉ QueryEscape s := by
  induction s with
  | nil => simp [QueryEscape]
  | cons c s ih =>
    unfold QueryEscape
    split
    · simp only [List.mem_cons, not_or]
      exact ⟨by decide, ih⟩
    · split
      · rename_i h1 h2
        simp only [List.mem_cons, not_or]
        refine ⟨by decide, ?_, ?_, ih⟩
        · exact fun h => upperhex_ne_amp _ (by omega) h.symm
        · exact fun h => upperhex_ne_amp _ (by omega) h.symm
      · rename_i h1 h2
        simp only [List.mem_cons, not_or]
        refine ⟨?_, ih⟩
        have := not_shouldEscape_ne_amp c (by simpa using h2)
        exact fun h => this h.symm

/-! ## The encoder -/

theorem amp_not_mem_pairEncoded (k v : GoString) : (0x26 : Byte) ∉ pairEncoded k v := by
  simp only [pairEncoded, List.mem_append, List.mem_singleton, not_or]
  exact ⟨⟨amp_not_mem_QueryEscape k, by decide⟩, amp_not_mem_QueryEscape v⟩

theorem pairEncoded_ne_nil (k v : GoString) : pairEncoded k v ≠ [] := by
  simp [pairEncoded]

theorem encodeKey_eq_appendSegs (ke : GoString) (vs : List GoString) (buf : GoString) :
    encodeKey ke buf vs
      = appendSegs buf (vs.map (fun v => ke ++ [0x3D] ++ QueryEscape v)) := by
  induction vs generalizing buf with
  | nil => simp [encodeKey, appendSegs]
  | cons v vs ih =>
    simp only [encodeKey, ih, appendSegs, List.map_cons, List.foldl_cons, List.append_assoc]

theorem encodeKeys_eq_appendSegs (v : Values) (ks : List GoString) (buf : GoString) :
    encodeKeys v buf ks
      = appendSegs buf (ks.flatMap (fun k => (mapGet v k).map (pairEncoded k))) := by
  induction ks generalizing buf with
  | nil => simp [encodeKeys, appendSegs]
  | cons k ks ih =>
    simp only [encodeKeys, ih, encodeKey_eq_appendSegs, appendSegs, List.flatMap_cons,
      List.foldl_append]
    rfl

theorem intercalate_cons (sep x : GoString) (rest : List GoString) :
    sep.intercalate (x :: rest) = x ++ rest.flatMap (fun s => sep ++ s) := by
  induction rest generalizing x with
  | nil => simp [List.intercalate]
  | cons y rest ih =>
    have h := ih y
    simp only [List.intercalate, List.intersperse, List.flatten_cons, List.flatMap_cons] at h ⊢
    rw [h]
    simp

theorem appendSegs_of_ne_nil (segs : List GoString) (buf : GoString) (hbuf : buf ≠ []) :
    appendSegs buf segs = buf ++ segs.flatMap (fun s => [0x26] ++ s) := by
  induction segs generalizing buf with
  | nil => simp [appendSegs]
  | cons s segs ih =>
    have hpos : buf.length > 0 := List.length_pos.2 hbuf
    have hstep : appendSegs buf (s :: segs) = appendSegs (buf ++ [0x26] ++ s) segs := by
      simp [appendSegs, hpos]
    rw [hstep, ih _ (by simp [hbuf])]
    simp

theorem appendSegs_nil_eq_intercalate (segs : List GoString) (h : ∀ s ∈ segs, s ≠ []) :
    appendSegs [] segs = [0x26].intercalate segs := by
  cases segs with
  | nil => simp [appendSegs, List.intercalate]
  | cons s segs =>
    have hs : s ≠ [] := h s (List.mem_cons_self _ _)
    have hstep : appendSegs [] (s :: segs) = appendSegs s segs := by
      simp [appendSegs]
    rw [hstep, appendSegs_of_ne_nil _ _ hs, intercalate_cons]

theorem Encode_eq_intercalate (v : Values) :
    v.Encode = [0x26].intercalate (querySegments v) := by
  unfold Values.Encode
  rw [encodeKeys_eq_appendSegs]
  apply appendSegs_nil_eq_intercalate
  intro s hs
  simp only [List.mem_flatMap, List.mem_map] at hs
  obtain ⟨k, _, w, _, rfl⟩ := hs
  exact pairEncoded_ne_nil k w

theorem amp_not_mem_querySegments (v : Values) : ∀ s ∈ querySegments v, (0x26 : Byte) ∉ s := by
  intro s hs
  simp only [querySegments, List.mem_flatMap, List.mem_map] at hs
  obtain ⟨k, _, w, _, rfl⟩ := hs
  exact amp_not_mem_pairEncoded k w

theorem rawPairs_Encode (v : Values) (h : querySegments v ≠ []) :
    rawPairs v.Encode = querySegments v := by
  rw [rawPairs, Encode_eq_intercalate]
  exact List.splitOn_intercalate _ 0x26 (amp_not_mem_querySegments v) h

theorem mem_querySegments (v : Values) (k w : GoString) (hw : w ∈ mapGet v k) :
    pairEncoded k w ∈ querySegments v := by
  have hk : k ∈ mapKeys v :=
    mem_mapKeys_of_mapGet_ne_nil v k (List.ne_nil_of_mem hw)
  simp only [querySegments, List.mem_flatMap, List.mem_map]
  exact ⟨k, (List.perm_insertionSort StrLe _).mem_iff.2 hk, w, hw, rfl⟩

theorem sublist_querySegments (v : Values) (k : GoString) (ws : List GoString)
    (hne : mapGet v k ≠ []) (hws : ws.Sublist (mapGet v k)) :
    (ws.map (pairEncoded k)).Sublist (querySegments v) := by
  have hk : k ∈ mapKeys v := mem_mapKeys_of_mapGet_ne_nil v k hne
  have hmem : (mapGet v k).map (pairEncoded k)
      ∈ ((mapKeys v).insertionSort StrLe).map (fun k => (mapGet v k).map (pairEncoded k)) :=
    List.mem_map.2 ⟨k, (List.perm_insertionSort StrLe _).mem_iff.2 hk, rfl⟩
  exact (hws.map _).trans (List.sublist_flatten_of_mem hmem)

theorem querySegments_addParams_ne_nil (q : Values) (ps : List (GoString × GoString))
    (hne : ps ≠ []) : querySegments (addParams q ps) ≠ [] := by
  obtain ⟨p, tl, rfl⟩ := List.exists_cons_of_ne_nil hne
  have hmem : pairEncoded p.1 p.2 ∈ querySegments (addParams q (p :: tl)) := by
    apply mem_querySegments
    rw [mapGet_addParams]
    simp [List.filter_cons]
  exact List.ne_nil_of_mem hmem

theorem addParams_perm (q : Values) (ps ps' : List (GoString × GoString))
    (hq : (mapKeys q).Nodup) (hnd : (ps.map Prod.fst).Nodup) (hp : ps'.Perm ps) :
    (addParams q ps').Encode = (addParams q ps).Encode := by
  have hget : ∀ k, mapGet (addParams q ps') k = mapGet (addParams q ps) k := by
    intro k
    rw [mapGet_addParams, mapGet_addParams]
    have hf := hp.filter (fun kv => decide (kv.1 = k))
    have hnd' : (ps'.map Prod.fst).Nodup := (hp.map Prod.fst).nodup_iff.2 hnd
    rw [perm_eq_of_length_le_one _ _ hf (filter_key_length_le_one ps' k hnd')]
  have hkeys : (mapKeys (addParams q ps')).Perm (mapKeys (addParams q ps)) := by
    rw [List.perm_ext_iff_of_nodup (nodup_mapKeys_addParams _ _ hq)
      (nodup_mapKeys_addParams _ _ hq)]
    intro k
    rw [mem_mapKeys_addParams, mem_mapKeys_addParams, (hp.map Prod.fst).mem_iff]
  have hsort : (mapKeys (addParams q ps')).insertionSort StrLe
      = (mapKeys (addParams q ps)).insertionSort StrLe := by
    haveI : IsTotal GoString StrLe := ⟨strLe_total⟩
    haveI : IsTrans GoString StrLe := ⟨strLe_trans⟩
    haveI : IsAntisymm GoString StrLe := ⟨strLe_antisymm⟩
    exact List.eq_of_perm_of_sorted
      (((List.perm_insertionSort StrLe _).trans hkeys).trans
        (List.perm_insertionSort StrLe _).symm)
      (List.sorted_insertionSort StrLe _) (List.sorted_insertionSort StrLe _)
  have hseg : querySegments (addParams q ps') = querySegments (addParams q ps) := by
    simp only [querySegments, hsort, hget]
  rw [Encode_eq_intercalate, Encode_eq_intercalate, hseg]

/-! ## Unescaping what `QueryEscape` wrote -/

theorem upperhex_not_sep (n : Nat) (h : n < 16) :
    upperhex n ≠ 0x3D ∧ upperhex n ≠ 0x3B := by
  interval_cases n <;> decide

set_option maxRecDepth 100000 in
theorem not_shouldEscape_not_sep :
    ∀ c : Byte, shouldEscape c = false → c ≠ 0x3D ∧ c ≠ 0x3B ∧ c ≠ 0x25 ∧ c ≠ 0x2B := by
  decide

set_option maxRecDepth 100000 in
theorem unhex_upperhex :
    ∀ c : Byte, ishex (upperhex (c.val / 16)) = true ∧ ishex (upperhex (c.val % 16)) = true ∧
      (Fin.ofNat (unhex (upperhex (c.val / 16)) * 16 + unhex (upperhex (c.val % 16))) : Byte)
        = c := by
  decide

theorem sep_not_mem_QueryEscape (b : Byte) (hb : b = 0x3D ∨ b = 0x3B) (s : GoString) :
    b ∉ QueryEscape s := by
  induction s with
  | nil => simp [QueryEscape]
  | cons c s ih =>
    unfold QueryEscape
    split
    · simp only [List.mem_cons, not_or]
      refine ⟨?_, ih⟩
      rcases hb with rfl | rfl <;> decide
    · split
      · simp only [List.mem_cons, not_or]
        have h1 := upperhex_not_sep (c.val / 16) (by omega)
        have h2 := upperhex_not_sep (c.val % 16) (by omega)
        refine ⟨?_, ?_, ?_, ih⟩
        · rcases hb with rfl | rfl <;> decide
        · rcases hb with rfl | rfl
          · exact fun h => h1.1 h.symm
          · exact fun h => h1.2 h.symm
        · rcases hb with rfl | rfl
          · exact fun h => h2.1 h.symm
          · exact fun h => h2.2 h.symm
      · rename_i h1 h2
        simp only [List.mem_cons, not_or]
        refine ⟨?_, ih⟩
        have h3 := not_shouldEscape_not_sep c (by simpa using h2)
        rcases hb with rfl | rfl
        · exact fun h => h3.1 h.symm
        · exact fun h => h3.2.1 h.symm

theorem QueryUnescape_cons (c : Byte) (t : GoString) :
    QueryUnescape (c :: t) =
      if c = 0x25 then
        match t with
        | a :: b :: rest =>
          if ishex a && ishex b then
            (QueryUnescape rest).map (fun u => Fin.ofNat (unhex a * 16 + unhex b) :: u)
          else none
        | _ => none
      else if c = 0x2B then (QueryUnescape t).map (fun u => 0x20 :: u)
      else (QueryUnescape t).map (fun u => c :: u) := by
  rw [QueryUnescape.eq_def]
  rfl

theorem QueryUnescape_QueryEscape (s : GoString) : QueryUnescape (QueryEscape s) = some s := by
  induction s with
  | nil => simp [QueryEscape, QueryUnescape]
  | cons c s ih =>
    unfold QueryEscape
    split
    · rename_i h
      subst h
      have h1 : ((0x2B : Byte) = 0x25) = False := by decide
      rw [QueryUnescape_cons, ih]
      simp [h1]
    · split
      · have h := unhex_upperhex c
        rw [QueryUnescape_cons]
        simp [ih, h.1, h.2.1, h.2.2]
      · rename_i h1 h2
        have h3 := not_shouldEscape_not_sep c (by simpa using h2)
        rw [QueryUnescape_cons]
        simp [ih, h3.2.2.1, h3.2.2.2]

theorem cut_append (sep : Byte) (a b : GoString) (h : sep ∉ a) :
    cut sep (a ++ sep :: b) = (a, b) := by
  induction a with
  | nil => simp [cut]
  | cons c a ih =>
    have hc : c ≠ sep := fun hcs => h (hcs ▸ List.mem_cons_self _ _)
    have ha : sep ∉ a := fun hm => h (List.mem_cons_of_mem _ hm)
    simp [cut, hc, ih ha]

theorem cut_pairEncoded (k v : GoString) :
    cut 0x3D (pairEncoded k v) = (QueryEscape k, QueryEscape v) := by
  have h := cut_append 0x3D (QueryEscape k) (QueryEscape v)
    (sep_not_mem_QueryEscape 0x3D (Or.inl rfl) k)
  simpa [pairEncoded] using h

theorem semicolon_not_mem_pairEncoded (k v : GoString) : (0x3B : Byte) ∉ pairEncoded k v := by
  simp only [pairEncoded, List.mem_append, List.mem_singleton, not_or]
  exact ⟨⟨sep_not_mem_QueryEscape 0x3B (Or.inr rfl) k, by decide⟩,
    sep_not_mem_QueryEscape 0x3B (Or.inr rfl) v⟩

/-! ## The header loop -/

theorem setHeaders_cons (h : Header) (kv : GoString × GoString)
    (hs : List (GoString × GoString)) :
    setHeaders h (kv :: hs) = setHeaders (h.Set kv.1 kv.2) hs := rfl

theorem mapGet_setHeaders (hs : List (GoString × GoString)) (h : Header) (c : GoString) :
    (∃ kv ∈ hs, CanonicalMIMEHeaderKey kv.1 = c ∧ mapGet (setHeaders h hs) c = [kv.2]) ∨
    ((∀ kv ∈ hs, CanonicalMIMEHeaderKey kv.1 ≠ c) ∧
      mapGet (setHeaders h hs) c = mapGet h c) := by
  induction hs generalizing h with
  | nil => exact Or.inr ⟨by simp, rfl⟩
  | cons p hs ih =>
    rw [setHeaders_cons]
    rcases ih (h.Set p.1 p.2) with ⟨kv, hmem, hc, hget⟩ | ⟨hall, hget⟩
    · exact Or.inl ⟨kv, List.mem_cons_of_mem _ hmem, hc, hget⟩
    · rw [Header.Set, mapGet_mapSet] at hget
      by_cases hp : CanonicalMIMEHeaderKey p.1 = c
      · rw [if_pos hp] at hget
        exact Or.inl ⟨p, List.mem_cons_self _ _, hp, hget⟩
      · rw [if_neg hp] at hget
        refine Or.inr ⟨?_, hget⟩
        intro kv hkv
        rcases List.mem_cons.1 hkv with rfl | hkv
        · exact hp
        · exact hall kv hkv

/-! ## The response builder -/

/-- C6: when the body is read without error, `BuildResponse` returns a `Response`
whose status code is the transport status code, whose body is the bytes read (same
bytes, same length) and whose headers are the transport header map as received, so
that every key has the same values in the same order. -/
theorem BuildResponse_copies_response (res : HttpResponse) (hread : res.Body.err = none) :
    ∃ resp res1, BuildResponse (some res) = Outcome.ret ((some resp, none), res1) ∧
      resp.StatusCode = res.StatusCode ∧
      resp.ResponseBody = res.Body.data ∧
      resp.ResponseBody.length = res.Body.data.length ∧
      resp.ResponseHeaders = res.Header ∧
      ∀ k, mapGet resp.ResponseHeaders k = mapGet res.Header k := by
  refine ⟨{ StatusCode := res.StatusCode, ResponseBody := res.Body.data,
            ResponseHeaders := res.Header },
          { res with Body := (ReadAll res.Body).2.Close }, ?_, rfl, rfl, rfl, rfl, fun _ => rfl⟩
  simp only [BuildResponse, ReadAll, hread]

/-- Theorem `BuildResponse_copies_response` at the echo response to the body `hello`. -/
theorem BuildResponse_copies_response_witness :
    ∃ resp res1,
      BuildResponse (some (echoResponse (ascii "hello")))
        = Outcome.ret ((some resp, none), res1) ∧
      resp.StatusCode = 200 ∧
      resp.ResponseBody = ascii "hello" ∧
      resp.ResponseBody.length = (ascii "hello").length ∧
      resp.ResponseHeaders = [(ascii "Set-Cookie", [ascii "a=1", ascii "b=2"])] ∧
      ∀ k, mapGet resp.ResponseHeaders k
        = mapGet [(ascii "Set-Cookie", [ascii "a=1", ascii "b=2"])] k :=
  BuildResponse_copies_response (echoResponse (ascii "hello")) rfl

/-- C8: when the body is read without error, `BuildResponse` closes the body stream
exactly once, after the read and before it returns: the operations on the stream are
the earlier ones followed by one read and one close. -/
theorem BuildResponse_closes_once_on_success (res : HttpResponse)
    (hread : res.Body.err = none) :
    ∃ resp res1, BuildResponse (some res) = Outcome.ret ((some resp, none), res1) ∧
      res1.Body.log = res.Body.log ++ [BodyEvent.read, BodyEvent.close] ∧
      res1.Body.closes = res.Body.closes + 1 := by
  refine ⟨{ StatusCode := res.StatusCode, ResponseBody := res.Body.data,
            ResponseHeaders := res.Header },
          { res with Body := (ReadAll res.Body).2.Close }, ?_, ?_, ?_⟩
  · simp only [BuildResponse, ReadAll, hread]
  · simp [Body.Close, ReadAll]
  · simp [Body.Close, Body.closes, ReadAll, List.count_append]

/-- Theorem `BuildResponse_closes_once_on_success` at the echo response to `hello`,
whose stream is fresh. -/
theorem BuildResponse_closes_once_on_success_witness :
    ∃ resp res1,
      BuildResponse (some (echoResponse (ascii "hello")))
        = Outcome.ret ((some resp, none), res1) ∧
      res1.Body.log = [] ++ [BodyEvent.read, BodyEvent.close] ∧
      res1.Body.closes = 0 + 1 :=
  BuildResponse_closes_once_on_success (echoResponse (ascii "hello")) rfl

/-- C2 (code defect): when reading the body fails with `e`, `BuildResponse` returns
`(nil, e)`, and the body stream is not closed: the only operation performed on it is
the read, and its close count is what it was before the call. -/
theorem BuildResponse_read_error_leaves_body_open (res : HttpResponse) (e : GoError)
    (hread : res.Body.err = some e) :
    ∃ res1, BuildResponse (some res) = Outcome.ret ((none, some e), res1) ∧
      res1.Body.log = res.Body.log ++ [BodyEvent.read] ∧
      res1.Body.closes = res.Body.closes := by
  refine ⟨{ res with Body := (ReadAll res.Body).2 }, ?_, ?_, ?_⟩
  · simp only [BuildResponse, ReadAll, hread]
  · simp [ReadAll]
  · simp [ReadAll, Body.closes, List.count_append]

/-- Theorem `BuildResponse_read_error_leaves_body_open` at a stream that breaks after
three bytes: it has never been closed when `BuildResponse` returns. -/
theorem BuildResponse_read_error_leaves_body_open_witness :
    ∃ res1,
      BuildResponse (some brokenResponse)
        = Outcome.ret ((none, some { msg := "unexpected EOF" }), res1) ∧
      res1.Body.log = [] ++ [BodyEvent.read] ∧
      res1.Body.closes = 0 :=
  BuildResponse_read_error_leaves_body_open brokenResponse { msg := "unexpected EOF" } rfl

/-! ## The request builder: errors and the empty query -/

/-- When `http.NewRequest` fails and both mappings are empty, `BuildRequestObject`
returns the nil request with the error. -/
theorem BuildRequestObject_error_of_empty (env : Env) (request : Request) (e : GoError)
    (hnew : env.NewRequest request.Method request.BaseURL request.RequestBody
      = Except.error e)
    (hq : request.QueryParams = []) (hh : request.RequestHeaders = []) :
    BuildRequestObject env request = Outcome.ret (none, some e) := by
  simp [BuildRequestObject, hnew, hq, hh]

theorem BuildRequestObject_ok (env : Env) (request : Request) (r0 : HttpRequest)
    (hnew : env.NewRequest request.Method request.BaseURL request.RequestBody
      = Except.ok r0) :
    BuildRequestObject env request = Outcome.ret
      (some { r0 with
          URL := if request.QueryParams = [] then r0.URL
                 else { r0.URL with
                        RawQuery := (addParams r0.URL.Query request.QueryParams).Encode }
          Header := setHeaders r0.Header request.RequestHeaders }, none) := by
  cases hq : request.QueryParams with
  | nil =>
    cases hh : request.RequestHeaders with
    | nil => simp [BuildRequestObject, hnew, hq, hh, setHeaders]
    | cons hd tl => simp [BuildRequestObject, hnew, hq, hh]
  | cons p ps =>
    cases hh : request.RequestHeaders with
    | nil => simp [BuildRequestObject, hnew, hq, hh, setHeaders]
    | cons hd tl => simp [BuildRequestObject, hnew, hq, hh]

/-- C1 (code defect): when `http.NewRequest` fails and `QueryParams` or
`RequestHeaders` is non-empty, `BuildRequestObject` dereferences the nil request and
panics instead of returning the error, and `API` panics with it. -/
theorem BuildRequestObject_faults_on_NewRequest_error (env : Env) (request : Request)
    (e : GoError)
    (hnew : env.NewRequest request.Method request.BaseURL request.RequestBody
      = Except.error e)
    (hne : request.QueryParams ≠ [] ∨ request.RequestHeaders ≠ []) :
    BuildRequestObject env request = Outcome.fault ∧
      (API env request).result = Outcome.fault := by
  have hb : BuildRequestObject env request = Outcome.fault := by
    by_cases hq : request.QueryParams = []
    · have hh : request.RequestHeaders ≠ [] := by
        rcases hne with h | h
        · exact absurd hq h
        · exact h
      obtain ⟨hd, tl, hcons⟩ := List.exists_cons_of_ne_nil hh
      simp [BuildRequestObject, hnew, hq, hcons]
    · simp [BuildRequestObject, hnew, hq]
  exact ⟨hb, by simp [API, hb]⟩

/-- Theorem `BuildRequestObject_faults_on_NewRequest_error` at the base URL `://bad`
with the query parameter `q=1`. -/
theorem BuildRequestObject_faults_on_NewRequest_error_witness :
    BuildRequestObject testEnv
        { plainRequest "://bad" with QueryParams := [(ascii "q", ascii "1")] }
      = Outcome.fault ∧
    (API testEnv { plainRequest "://bad" with QueryParams := [(ascii "q", ascii "1")] }).result
      = Outcome.fault :=
  BuildRequestObject_faults_on_NewRequest_error testEnv
    { plainRequest "://bad" with QueryParams := [(ascii "q", ascii "1")] }
    { msg := "parse: missing protocol scheme" } rfl (Or.inl (by decide))

/-- C7: for a request that `http.NewRequest` accepts and whose `QueryParams` is
empty, `BuildRequestObject` succeeds and the URL of the built request is the URL
`http.NewRequest` parsed from `BaseURL`, its query string included. -/
theorem BuildRequestObject_empty_query_keeps_URL (env : Env) (request : Request)
    (r0 : HttpRequest)
    (hnew : env.NewRequest request.Method request.BaseURL request.RequestBody
      = Except.ok r0)
    (hq : request.QueryParams = []) :
    ∃ req, BuildRequestObject env request = Outcome.ret (some req, none) ∧
      req.URL = r0.URL ∧ req.URL.RawQuery = r0.URL.RawQuery := by
  cases hh : request.RequestHeaders with
  | nil => exact ⟨r0, by simp [BuildRequestObject, hnew, hq, hh], rfl, rfl⟩
  | cons hd tl =>
    exact ⟨{ r0 with Header := setHeaders r0.Header (hd :: tl) },
      by simp [BuildRequestObject, hnew, hq, hh], rfl, rfl⟩

/-- Theorem `BuildRequestObject_empty_query_keeps_URL` at
`http://test.local/echo?q=0&z=9` with one header and no query parameters. -/
theorem BuildRequestObject_empty_query_keeps_URL_witness :
    ∃ req,
      BuildRequestObject testEnv
          { plainRequest "http://test.local/echo?q=0&z=9" with
            RequestHeaders := [(ascii "X-Test", ascii "abc")] }
        = Outcome.ret (some req, none) ∧
      req.URL = httpURL (ascii "test.local") (ascii "/echo") (ascii "q=0&z=9") ∧
      req.URL.RawQuery = ascii "q=0&z=9" :=
  BuildRequestObject_empty_query_keeps_URL testEnv
    { plainRequest "http://test.local/echo?q=0&z=9" with
      RequestHeaders := [(ascii "X-Test", ascii "abc")] }
    echoRequest rfl rfl

/-! ## The request builder: query parameters -/

/-- The request built from `queryRequest`: the query of the base URL and the two
parameters are merged into `a=x&q=0&q=1+2&z=9`. -/
theorem BuildRequestObject_queryRequest :
    BuildRequestObject testEnv queryRequest = Outcome.ret
      (some { Method := Get,
              URL := httpURL (ascii "test.local") (ascii "/echo") (ascii "a=x&q=0&q=1+2&z=9"),
              Header := [(ascii "X-Test", [ascii "abc"])],
              Body := [] }, none) := by
  decide

/-- C4: for a request that `http.NewRequest` accepts and whose `QueryParams` is
non-empty, `BuildRequestObject` succeeds whatever the order `order` in which the
mapping is iterated, and every pair `(k, v)` of `QueryParams` is one of the
`&`-separated pairs of the built `URL.RawQuery`, written `QueryEscape(k)=QueryEscape(v)`. -/
theorem BuildRequestObject_encodes_query_params (env : Env) (request : Request)
    (r0 : HttpRequest) (order : List (GoString × GoString))
    (hnew : env.NewRequest request.Method request.BaseURL request.RequestBody
      = Except.ok r0)
    (hne : request.QueryParams ≠ [])
    (horder : order.Perm request.QueryParams) :
    ∃ req, BuildRequestObject env { request with QueryParams := order }
        = Outcome.ret (some req, none) ∧
      ∀ k v, (k, v) ∈ request.QueryParams → pairEncoded k v ∈ rawPairs req.URL.RawQuery := by
  have hone : order ≠ [] := fun h => hne (List.Perm.eq_nil (h ▸ horder.symm))
  refine ⟨_, BuildRequestObject_ok env { request with QueryParams := order } r0 hnew, ?_⟩
  intro k v hkv
  simp only [hone, if_false]
  rw [rawPairs_Encode _ (querySegments_addParams_ne_nil _ _ hone)]
  apply mem_querySegments
  rw [mapGet_addParams]
  apply List.mem_append_right
  exact List.mem_map.2 ⟨(k, v), List.mem_filter.2 ⟨horder.mem_iff.2 hkv, by simp⟩, rfl⟩

/-- Theorem `BuildRequestObject_encodes_query_params` at `queryRequest`, the mapping
being iterated in the opposite order. -/
theorem BuildRequestObject_encodes_query_params_witness :
    ∃ req, BuildRequestObject testEnv
        { queryRequest with QueryParams := [(ascii "a", ascii "x"), (ascii "q", ascii "1 2")] }
        = Outcome.ret (some req, none) ∧
      ∀ k v, (k, v) ∈ queryRequest.QueryParams → pairEncoded k v ∈ rawPairs req.URL.RawQuery :=
  BuildRequestObject_encodes_query_params testEnv queryRequest echoRequest
    [(ascii "a", ascii "x"), (ascii "q", ascii "1 2")] rfl (by decide)
    (List.Perm.swap _ _ _)

/-- The values `URL.Query` read from the query of `BaseURL` are kept: each is still one
of the pairs of the built `URL.RawQuery` and stands before an added pair of its key. -/
theorem BuildRequestObject_keeps_Query_values (env : Env) (request : Request)
    (r0 : HttpRequest)
    (hnew : env.NewRequest request.Method request.BaseURL request.RequestBody
      = Except.ok r0)
    (hne : request.QueryParams ≠ []) :
    ∃ req, BuildRequestObject env request = Outcome.ret (some req, none) ∧
      (∀ k v0, v0 ∈ mapGet r0.URL.Query k → pairEncoded k v0 ∈ rawPairs req.URL.RawQuery) ∧
      (∀ k v0 v1, v0 ∈ mapGet r0.URL.Query k → (k, v1) ∈ request.QueryParams →
        [pairEncoded k v0, pairEncoded k v1].Sublist (rawPairs req.URL.RawQuery)) := by
  refine ⟨_, BuildRequestObject_ok env request r0 hnew, ?_, ?_⟩
  · intro k v0 h0
    simp only [hne, if_false]
    rw [rawPairs_Encode _ (querySegments_addParams_ne_nil _ _ hne)]
    apply mem_querySegments
    rw [mapGet_addParams]
    exact List.mem_append_left _ h0
  · intro k v0 v1 h0 h1
    simp only [hne, if_false]
    rw [rawPairs_Encode _ (querySegments_addParams_ne_nil _ _ hne)]
    have hget := mapGet_addParams request.QueryParams r0.URL.Query k
    have h1' : v1 ∈ (request.QueryParams.filter (fun kv => decide (kv.1 = k))).map Prod.snd :=
      List.mem_map.2 ⟨(k, v1), List.mem_filter.2 ⟨h1, by simp⟩, rfl⟩
    have hsub : [v0, v1].Sublist (mapGet (addParams r0.URL.Query request.QueryParams) k) := by
      rw [hget]
      exact List.Sublist.append (List.singleton_sublist.2 h0) (List.singleton_sublist.2 h1')
    have hnil : mapGet (addParams r0.URL.Query request.QueryParams) k ≠ [] := by
      rw [hget]
      exact List.ne_nil_of_mem (List.mem_append_left _ h0)
    exact sublist_querySegments _ k [v0, v1] hnil hsub

/-- C10 (amended): for a request that `http.NewRequest` accepts, whose `QueryParams` is
non-empty and whose base query has at most `defaultMaxParams` pieces between `&`,
`BuildRequestObject` merges the pairs of the base query that can be read. Every piece
of the base query that holds no `;`, is not empty and whose key and value unescape to
`k` and `v0` is, written `QueryEscape(k)=QueryEscape(v0)`, one of the pieces of the
built `URL.RawQuery`, and it stands before the added pair of a key `k` that also occurs
in `QueryParams`. In particular every piece that is already written
`QueryEscape(k)=QueryEscape(v0)` is still a piece of the built query, unchanged. -/
theorem BuildRequestObject_merges_query (env : Env) (request : Request)
    (r0 : HttpRequest)
    (hnew : env.NewRequest request.Method request.BaseURL request.RequestBody
      = Except.ok r0)
    (hne : request.QueryParams ≠ [])
    (hmax : r0.URL.RawQuery.count 0x26 + 1 ≤ defaultMaxParams) :
    ∃ req, BuildRequestObject env request = Outcome.ret (some req, none) ∧
      (∀ kv k v0, kv ∈ rawPairs r0.URL.RawQuery → (0x3B : Byte) ∉ kv → kv ≠ [] →
        QueryUnescape (cut 0x3D kv).1 = some k → QueryUnescape (cut 0x3D kv).2 = some v0 →
        pairEncoded k v0 ∈ rawPairs req.URL.RawQuery ∧
        ∀ v1, (k, v1) ∈ request.QueryParams →
          [pairEncoded k v0, pairEncoded k v1].Sublist (rawPairs req.URL.RawQuery)) ∧
      (∀ k v0, pairEncoded k v0 ∈ rawPairs r0.URL.RawQuery →
        pairEncoded k v0 ∈ rawPairs req.URL.RawQuery) := by
  obtain ⟨req, hreq, hmem, hsub⟩ := BuildRequestObject_keeps_Query_values env request r0 hnew hne
  have hraw : ∀ kv k v0, kv ∈ rawPairs r0.URL.RawQuery → (0x3B : Byte) ∉ kv → kv ≠ [] →
      QueryUnescape (cut 0x3D kv).1 = some k → QueryUnescape (cut 0x3D kv).2 = some v0 →
      pairEncoded k v0 ∈ rawPairs req.URL.RawQuery ∧
      ∀ v1, (k, v1) ∈ request.QueryParams →
        [pairEncoded k v0, pairEncoded k v1].Sublist (rawPairs req.URL.RawQuery) := by
    intro kv k v0 hkv hsemi hnil hk hv
    have hread := Query_reads_rawPair r0.URL kv k v0 hmax hkv hsemi hnil hk hv
    exact ⟨hmem k v0 hread, fun v1 h1 => hsub k v0 v1 hread h1⟩
  refine ⟨req, hreq, hraw, ?_⟩
  intro k v0 hkv
  have hcut := cut_pairEncoded k v0
  refine (hraw (pairEncoded k v0) k v0 hkv (semicolon_not_mem_pairEncoded k v0)
    (pairEncoded_ne_nil k v0) ?_ ?_).1
  · rw [hcut]
    exact QueryUnescape_QueryEscape k
  · rw [hcut]
    exact QueryUnescape_QueryEscape v0

/-- Theorem `BuildRequestObject_merges_query` at `queryRequest`, whose base query is
`q=0&z=9` and whose parameters are `q=1 2` and `a=x`: the pieces `q=0` and `z=9` are
read, both are pieces of the built query, and `q=0` stands before `q=1+2`. -/
theorem BuildRequestObject_merges_query_witness :
    ∃ req, BuildRequestObject testEnv queryRequest = Outcome.ret (some req, none) ∧
      pairEncoded (ascii "q") (ascii "0") ∈ rawPairs req.URL.RawQuery ∧
      pairEncoded (ascii "z") (ascii "9") ∈ rawPairs req.URL.RawQuery ∧
      [pairEncoded (ascii "q") (ascii "0"), pairEncoded (ascii "q") (ascii "1 2")].Sublist
        (rawPairs req.URL.RawQuery) := by
  obtain ⟨req, hreq, hraw, _⟩ :=
    BuildRequestObject_merges_query testEnv queryRequest echoRequest rfl (by decide) (by decide)
  have hq := hraw (ascii "q=0") (ascii "q") (ascii "0") (by decide) (by decide) (by decide)
    (by decide) (by decide)
  have hz := hraw (ascii "z=9") (ascii "z") (ascii "9") (by decide) (by decide) (by decide)
    (by decide) (by decide)
  exact ⟨req, hreq, hq.1, hz.1, hq.2 (ascii "1 2") (by decide)⟩

/-- C10 fails as stated: the base URL `http://h/p?a=1;b=2&c=3` carries the piece
`a=1;b=2`, and with the parameter `d=4` the built query is `c=3&d=4`: the piece is in
it neither as written nor escaped, and no pair of the key `a` or `b` is. The piece
`x=%zz` of `http://h/p?x=%zz&c=3` is lost in the same way. -/
theorem BuildRequestObject_drops_unreadable_pairs_counterexample :
    (testEnv.NewRequest semicolonRequest.Method semicolonRequest.BaseURL
        semicolonRequest.RequestBody = Except.ok (semicolonParsed Get [])) ∧
    ascii "a=1;b=2" ∈ rawPairs (semicolonParsed Get []).URL.RawQuery ∧
    (∃ req, BuildRequestObject testEnv semicolonRequest = Outcome.ret (some req, none) ∧
      req.URL.RawQuery = ascii "c=3&d=4" ∧
      ascii "a=1;b=2" ∉ rawPairs req.URL.RawQuery ∧
      pairEncoded (ascii "a") (ascii "1;b=2") ∉ rawPairs req.URL.RawQuery ∧
      pairEncoded (ascii "a") (ascii "1") ∉ rawPairs req.URL.RawQuery ∧
      pairEncoded (ascii "b") (ascii "2") ∉ rawPairs req.URL.RawQuery) ∧
    (testEnv.NewRequest brokenEscapeRequest.Method brokenEscapeRequest.BaseURL
        brokenEscapeRequest.RequestBody = Except.ok (brokenEscapeParsed Get [])) ∧
    ascii "x=%zz" ∈ rawPairs (brokenEscapeParsed Get []).URL.RawQuery ∧
    (∃ req, BuildRequestObject testEnv brokenEscapeRequest = Outcome.ret (some req, none) ∧
      req.URL.RawQuery = ascii "c=3&d=4" ∧
      ascii "x=%zz" ∉ rawPairs req.URL.RawQuery ∧
      pairEncoded (ascii "x") (ascii "%zz") ∉ rawPairs req.URL.RawQuery) := by
  refine ⟨rfl, by decide, ⟨_, rfl, by decide, by decide, by decide, by decide, by decide⟩,
    rfl, by decide, ⟨_, rfl, by decide, by decide, by decide⟩⟩

/-- C9: for a request that `http.NewRequest` accepts and whose `QueryParams` is a map
(no key twice), `BuildRequestObject` builds the same request, and so the same
`URL.RawQuery`, whatever the order `order` in which the mapping is iterated. -/
theorem BuildRequestObject_query_order_independent (env : Env) (request : Request)
    (r0 : HttpRequest) (order : List (GoString × GoString))
    (hnew : env.NewRequest request.Method request.BaseURL request.RequestBody
      = Except.ok r0)
    (hmap : (request.QueryParams.map Prod.fst).Nodup)
    (horder : order.Perm request.QueryParams) :
    ∃ req req1, BuildRequestObject env request = Outcome.ret (some req, none) ∧
      BuildRequestObject env { request with QueryParams := order }
        = Outcome.ret (some req1, none) ∧
      req1.URL.RawQuery = req.URL.RawQuery ∧ req1 = req := by
  have hiff : order = [] ↔ request.QueryParams = [] := by
    constructor
    · intro h
      exact List.Perm.eq_nil (h ▸ horder.symm)
    · intro h
      exact List.Perm.eq_nil (h ▸ horder)
  have henc := addParams_perm r0.URL.Query request.QueryParams order
    (nodup_mapKeys_Query r0.URL) hmap horder
  have heq : ({ r0 with
      URL := if order = [] then r0.URL
             else { r0.URL with RawQuery := (addParams r0.URL.Query order).Encode }
      Header := setHeaders r0.Header request.RequestHeaders } : HttpRequest)
      = { r0 with
      URL := if request.QueryParams = [] then r0.URL
             else { r0.URL with
                    RawQuery := (addParams r0.URL.Query request.QueryParams).Encode }
      Header := setHeaders r0.Header request.RequestHeaders } := by
    by_cases h : request.QueryParams = []
    · simp [h, hiff.2 h]
    · have h' : order ≠ [] := fun h1 => h (hiff.1 h1)
      simp [h, h', henc]
  exact ⟨_, _, BuildRequestObject_ok env request r0 hnew,
    BuildRequestObject_ok env { request with QueryParams := order } r0 hnew,
    by rw [heq], heq⟩

/-- Theorem `BuildRequestObject_query_order_independent` at `queryRequest`, the mapping
being iterated in the opposite order. -/
theorem BuildRequestObject_query_order_independent_witness :
    ∃ req req1, BuildRequestObject testEnv queryRequest = Outcome.ret (some req, none) ∧
      BuildRequestObject testEnv
        { queryRequest with QueryParams := [(ascii "a", ascii "x"), (ascii "q", ascii "1 2")] }
        = Outcome.ret (some req1, none) ∧
      req1.URL.RawQuery = req.URL.RawQuery ∧ req1 = req :=
  BuildRequestObject_query_order_independent testEnv queryRequest echoRequest
    [(ascii "a", ascii "x"), (ascii "q", ascii "1 2")] rfl (by decide)
    (List.Perm.swap _ _ _)

/-! ## The request builder: headers -/

/-- C3 (amended): for a request that `http.NewRequest` accepts, `BuildRequestObject`
succeeds and every entry `(k, v)` of `RequestHeaders` leaves the header named `k` with
exactly one value, that of an entry whose key has the same canonical form as `k`
(set by replacement, not appended); when no other key of the mapping shares the
canonical form of `k`, that value is `v`. -/
theorem BuildRequestObject_sets_headers (env : Env) (request : Request) (r0 : HttpRequest)
    (hnew : env.NewRequest request.Method request.BaseURL request.RequestBody
      = Except.ok r0)
    (hmap : (request.RequestHeaders.map Prod.fst).Nodup) :
    ∃ req, BuildRequestObject env request = Outcome.ret (some req, none) ∧
      ∀ k v, (k, v) ∈ request.RequestHeaders →
        (∃ k' v', (k', v') ∈ request.RequestHeaders ∧
          CanonicalMIMEHeaderKey k' = CanonicalMIMEHeaderKey k ∧
          req.Header.Values k = [v']) ∧
        ((∀ k' v', (k', v') ∈ request.RequestHeaders →
            CanonicalMIMEHeaderKey k' = CanonicalMIMEHeaderKey k → k' = k) →
          req.Header.Values k = [v]) := by
  refine ⟨_, BuildRequestObject_ok env request r0 hnew, ?_⟩
  intro k v hkv
  have hex : ∃ k' v', (k', v') ∈ request.RequestHeaders ∧
      CanonicalMIMEHeaderKey k' = CanonicalMIMEHeaderKey k ∧
      mapGet (setHeaders r0.Header request.RequestHeaders) (CanonicalMIMEHeaderKey k)
        = [v'] := by
    rcases mapGet_setHeaders request.RequestHeaders r0.Header (CanonicalMIMEHeaderKey k)
      with ⟨kv, hmem, hc, hget⟩ | ⟨hall, _⟩
    · exact ⟨kv.1, kv.2, hmem, hc, hget⟩
    · exact absurd rfl (hall (k, v) hkv)
  refine ⟨hex, ?_⟩
  intro huniq
  obtain ⟨k', v', hmem, hc, hget⟩ := hex
  have hk : k' = k := huniq k' v' hmem hc
  subst hk
  have hv : v' = v := by
    have hinj := List.inj_on_of_nodup_map hmap hmem hkv rfl
    exact (Prod.mk.inj hinj).2
  subst hv
  exact hget

/-- Theorem `BuildRequestObject_sets_headers` at `headerRequest`, whose headers
`content-type` and `X-Test` have different canonical forms: each is on the built
request with exactly its own value. -/
theorem BuildRequestObject_sets_headers_witness :
    ∃ req, BuildRequestObject testEnv headerRequest = Outcome.ret (some req, none) ∧
      req.Header.Values (ascii "content-type") = [ascii "text/plain"] ∧
      req.Header.Values (ascii "X-Test") = [ascii "abc"] := by
  obtain ⟨req, hreq, h⟩ :=
    BuildRequestObject_sets_headers testEnv headerRequest echoPlainRequest rfl (by decide)
  refine ⟨req, hreq, (h (ascii "content-type") (ascii "text/plain") (by decide)).2 ?_,
    (h (ascii "X-Test") (ascii "abc") (by decide)).2 ?_⟩
  · intro k' v' hmem hc
    have hcases : (k', v') = (ascii "content-type", ascii "text/plain") ∨
        (k', v') = (ascii "X-Test", ascii "abc") := by
      simpa [headerRequest] using hmem
    rcases hcases with h1 | h1
    · exact (Prod.mk.inj h1).1
    · have hk : k' = ascii "X-Test" := (Prod.mk.inj h1).1
      subst hk
      exact absurd hc (by decide)
  · intro k' v' hmem hc
    have hcases : (k', v') = (ascii "content-type", ascii "text/plain") ∨
        (k', v') = (ascii "X-Test", ascii "abc") := by
      simpa [headerRequest] using hmem
    rcases hcases with h1 | h1
    · have hk : k' = ascii "content-type" := (Prod.mk.inj h1).1
      subst hk
      exact absurd hc (by decide)
    · exact (Prod.mk.inj h1).1

/-- C3 fails as stated: `caseRequest` is well formed, its header names `x-test` and
`X-Test` differ only in letter case, and `BuildRequestObject` succeeds on it; yet the
entry `x-test: a` is not on the built request: the one header `X-Test` holds `b`, the
value set last, and nothing is stored under the name `x-test` itself. When the map is
iterated in the other order it is the entry `X-Test: b` that is lost. -/
theorem BuildRequestObject_header_case_counterexample :
    caseRequest.WellFormed ∧
    (∃ req, BuildRequestObject testEnv caseRequest = Outcome.ret (some req, none) ∧
      (ascii "x-test", ascii "a") ∈ caseRequest.RequestHeaders ∧
      req.Header = [(ascii "X-Test", [ascii "b"])] ∧
      req.Header.Values (ascii "x-test") = [ascii "b"] ∧
      mapGet req.Header (ascii "x-test") = [] ∧
      ¬ (∀ k v, (k, v) ∈ caseRequest.RequestHeaders → req.Header.Values k = [v])) ∧
    (∃ req, BuildRequestObject testEnv
        { caseRequest with RequestHeaders := caseRequest.RequestHeaders.reverse }
        = Outcome.ret (some req, none) ∧
      req.Header = [(ascii "X-Test", [ascii "a"])] ∧
      ¬ (∀ k v, (k, v) ∈ caseRequest.RequestHeaders → req.Header.Values k = [v])) := by
  refine ⟨by unfold Request.WellFormed; decide,
    ⟨_, rfl, by decide, by decide, by decide, by decide, ?_⟩, ⟨_, rfl, by decide, ?_⟩⟩
  · intro h
    exact absurd (h (ascii "x-test") (ascii "a") (by decide)) (by decide)
  · intro h
    exact absurd (h (ascii "X-Test") (ascii "b") (by decide)) (by decide)

/-! ## The façade -/

/-- C5: `API` runs the stages in order and stops at the first error. If
`BuildRequestObject` returns an error, it is the only stage invoked; if `MakeRequest`
returns an error, `BuildResponse` is not invoked; in both cases and when
`BuildResponse` returns an error, `API` returns `(nil, err)` with that very error;
when all three succeed it returns the `Response` of `BuildResponse` and a nil error. -/
theorem API_short_circuits (env : Env) (request : Request) :
    (∀ req e, BuildRequestObject env request = Outcome.ret (req, some e) →
      API env request =
        { calls := [Stage.BuildRequestObject],
          result := Outcome.ret (none, some e) }) ∧
    (∀ req res e, BuildRequestObject env request = Outcome.ret (req, none) →
      MakeRequest env req = Outcome.ret (res, some e) →
      API env request =
        { calls := [Stage.BuildRequestObject, Stage.MakeRequest],
          result := Outcome.ret (none, some e) }) ∧
    (∀ req res resp e res1, BuildRequestObject env request = Outcome.ret (req, none) →
      MakeRequest env req = Outcome.ret (res, none) →
      BuildResponse res = Outcome.ret ((resp, some e), res1) →
      API env request =
        { calls := [Stage.BuildRequestObject, Stage.MakeRequest, Stage.BuildResponse],
          result := Outcome.ret (none, some e) }) ∧
    (∀ req res resp res1, BuildRequestObject env request = Outcome.ret (req, none) →
      MakeRequest env req = Outcome.ret (res, none) →
      BuildResponse res = Outcome.ret ((resp, none), res1) →
      API env request =
        { calls := [Stage.BuildRequestObject, Stage.MakeRequest, Stage.BuildResponse],
          result := Outcome.ret (resp, none) }) := by
  refine ⟨?_, ?_, ?_, ?_⟩
  · intro req e hb
    simp [API, hb]
  · intro req res e hb hm
    simp [API, hb, hm]
  · intro req res resp e res1 hb hm hr
    simp [API, hb, hm, hr]
  · intro req res resp res1 hb hm hr
    simp [API, hb, hm, hr]

/-- Theorem `API_short_circuits` on the test double: a base URL that does not parse,
an unreachable host, a connection that breaks during the read, and a full round trip
of the body `hello`. -/
theorem API_short_circuits_witness :
    API testEnv (plainRequest "://bad") =
      { calls := [Stage.BuildRequestObject],
        result := Outcome.ret (none, some { msg := "parse: missing protocol scheme" }) } ∧
    API testEnv (plainRequest "http://down.local/") =
      { calls := [Stage.BuildRequestObject, Stage.MakeRequest],
        result := Outcome.ret (none, some { msg := "dial tcp: connection refused" }) } ∧
    API testEnv (plainRequest "http://test.local/drop") =
      { calls := [Stage.BuildRequestObject, Stage.MakeRequest, Stage.BuildResponse],
        result := Outcome.ret (none, some { msg := "unexpected EOF" }) } ∧
    API testEnv { plainRequest "http://test.local/echo" with
                  Method := Post, RequestBody := ascii "hello" } =
      { calls := [Stage.BuildRequestObject, Stage.MakeRequest, Stage.BuildResponse],
        result := Outcome.ret
          (some { StatusCode := 200, ResponseBody := ascii "hello",
                  ResponseHeaders := [(ascii "Set-Cookie", [ascii "a=1", ascii "b=2"])] },
           none) } :=
  ⟨(API_short_circuits testEnv (plainRequest "://bad")).1 none _ rfl,
   (API_short_circuits testEnv (plainRequest "http://down.local/")).2.1 _ none _ rfl rfl,
   (API_short_circuits testEnv (plainRequest "http://test.local/drop")).2.2.1
      _ _ none _ _ rfl rfl rfl,
   (API_short_circuits testEnv { plainRequest "http://test.local/echo" with
      Method := Post, RequestBody := ascii "hello" }).2.2.2 _ _ _ _ rfl rfl rfl⟩

end Rest
